import Mathlib

/-!
Shallow embedding of the JASS Elias-delta integer codec
(src/source/compress_integer_elias_delta.cpp) together with the bit-math
helper maths::floor_log2 (src/source/maths.h), and theorems settling the
frozen claims about them.

Conventions of the embedding:
* machine integers are `Nat` with explicit truncation: 64-bit expressions
  carry `% 2 ^ 64`, 32-bit expressions `% 2 ^ 32`, where overflow can occur;
* the byte buffers are total maps `Nat → Nat`, a byte being read modulo 256
  (the C++ code reads and writes raw memory through `uint8_t *` and
  `uint64_t *` pointers on a little-endian machine);
* the element type `integer` of the codec is declared in
  compress_integer.h, which is not part of the source tree; following the
  spec ("an unsigned value in the domain [1, 2^63 − 1]") it is modelled as
  an unsigned 64-bit quantity, so loads and stores of one integer are
  64-bit operations;
* C++ subtraction on unsigned operands is written with Nat subtraction;
  in every branch in which the source evaluates such a subtraction the
  minuend is at least the subtrahend, so the two semantics agree there.
-/

/-- Modelled from the spec: the 256-entry table `floor_log2_answer` is
defined in maths.cpp, which is not in the source tree; the spec defines the
quantity as the floor of the base-2 logarithm (position of the highest set
bit), so entry b holds that floor for nonzero bytes, and entry 0 holds 0. -/
def floor_log2_answer (b : Nat) : Nat :=
  if 128 ≤ b then 7
  else if 64 ≤ b then 6
  else if 32 ≤ b then 5
  else if 16 ≤ b then 4
  else if 8 ≤ b then 3
  else if 4 ≤ b then 2
  else if 2 ≤ b then 1
  else 0

/-- Body of the do-while loop of maths::floor_log2 (maths.h lines 130-143):
each pass looks up the low byte, adds the byte position times 8, and shifts
the argument right by 8 bits until it is zero.  A 64-bit `size_t` argument
is exhausted after at most 8 passes, so the loop is given fuel 8; the
fuel-0 fallback returns the current lookup and is never reached for
arguments below 2 ^ 64. -/
def floor_log2_go : Nat → Nat → Nat → Nat
  | 0, x, mult => floor_log2_answer (x % 256) + mult
  | fuel + 1, x, mult =>
    if x / 256 = 0 then floor_log2_answer (x % 256) + mult
    else floor_log2_go fuel (x / 256) (mult + 8)

/-- maths::floor_log2 (maths.h lines 130-143).  The C++ parameter is a
64-bit `size_t`, hence the truncation of the argument. -/
def floor_log2 (x : Nat) : Nat :=
  floor_log2_go 8 (x % 2 ^ 64) 0

/-- The unaligned little-endian 64-bit OR-write
`*reinterpret_cast<uint64_t *>(encoded + addr) |= pattern` used by encode
(compress_integer_elias_delta.cpp lines 62-63 and 72-73): each of the 8
bytes starting at `addr` receives the corresponding byte of `pattern`
OR-ed into it. -/
def wordWrite (bytes : Nat → Nat) (addr pattern : Nat) : Nat → Nat :=
  fun j =>
    if addr ≤ j ∧ j < addr + 8 then bytes j ||| ((pattern >>> (8 * (j - addr))) % 256)
    else bytes j

/-- One pass of the encoding loop of compress_integer_elias_delta::encode
(compress_integer_elias_delta.cpp lines 31-76).  The state is the byte
buffer together with the bit cursor `into`.  `n` is the 32-bit bit length
of the value, `unary` the bit length of `n` minus one; the zig-zag
rotation `((n & ~(1 << unary)) << 1) + 1` is 32-bit arithmetic, the value
pattern `(*value & ~(1ULL << (n - 1))) << shift` is 64-bit arithmetic and
therefore drops any bits shifted past position 63. -/
def encodeStep (st : (Nat → Nat) × Nat) (value : Nat) : (Nat → Nat) × Nat :=
  let n := (floor_log2 value + 1) % 2 ^ 32
  let unary := floor_log2 n
  let into1 := st.2 + unary
  let zig_zag := (((n &&& (2 ^ 32 - 1 - (1 <<< unary) % 2 ^ 32)) <<< 1) + 1) % 2 ^ 32
  let encoded1 := wordWrite st.1 (into1 / 8) ((zig_zag <<< (into1 % 8)) % 2 ^ 64)
  let into2 := into1 + unary + 1
  let encoded2 := wordWrite encoded1 (into2 / 8)
    (((value &&& (2 ^ 64 - 1 - (1 <<< (n - 1)) % 2 ^ 64)) <<< (into2 % 8)) % 2 ^ 64)
  (encoded2, into2 + (n - 1))

/-- compress_integer_elias_delta::encode (compress_integer_elias_delta.cpp
lines 18-79).  `mem` is the content of memory before the call; the memset
at line 25 zeroes the first `encoded_buffer_length` bytes and nothing else.
The result is the byte buffer after all writes together with the returned
byte count `(into + 7) / 8` (line 78).  No capacity or zero-value check
appears anywhere in the body. -/
def encode (mem : Nat → Nat) (encoded_buffer_length : Nat) (source : List Nat) :
    (Nat → Nat) × Nat :=
  let zeroed : Nat → Nat := fun j => if j < encoded_buffer_length then 0 else mem j
  let fin := source.foldl encodeStep (zeroed, 0)
  (fin.1, (fin.2 + 7) / 8)

/-- The bit cursor `into` accumulated by encode over a sequence: the total
number of bits the encoder consumes (projection of the encoding fold of
compress_integer_elias_delta.cpp lines 30-76 onto its second component). -/
def encodedBitLength (source : List Nat) : Nat :=
  (source.foldl encodeStep ((fun _ => 0), 0)).2

/-- Bit `p` of the encoded stream: bit `p % 8` of byte `p / 8`, bits
counted from the least significant end (the layout described throughout
compress_integer_elias_delta.cpp). -/
def streamBit (bytes : Nat → Nat) (p : Nat) : Nat :=
  ((bytes (p / 8) % 256) >>> (p % 8)) % 2

/-- x86 TZCNT on a 64-bit word (`_tzcnt_u64`): the number of trailing zero
bits, 64 when the word is zero.  Implemented with fuel 64, which is exact
for arguments below 2 ^ 64. -/
def tzcntGo : Nat → Nat → Nat
  | _, 0 => 0
  | v, fuel + 1 => if v % 2 = 1 then 0 else tzcntGo (v / 2) fuel + 1

/-- Trailing zero count of a 64-bit word, as computed by `_tzcnt_u64`. -/
def tzcnt (v : Nat) : Nat :=
  tzcntGo (v % 2 ^ 64) 64

/-- x86 BEXTR (`_bextr_u64 src start len`): the start and length operands
are taken modulo 256 (they are byte-sized fields of the control operand);
the result is the `len` bits of `src` from position `start`, the whole
remaining word when `len` is 64 or more. -/
def bextr (src start len : Nat) : Nat :=
  if 64 ≤ len % 256 then src >>> (start % 256)
  else (src >>> (start % 256)) % 2 ^ (len % 256)

/-- The C++ expression `1 << k` at compress_integer_elias_delta.cpp lines
152 and 158, in which the literal 1 is a 32-bit int while the count `k`
comes from a 64-bit value: on x86-64 the variable shift masks the count to
5 bits, and the int result `1 << 31` is the minimum int, which
sign-extends when it meets the surrounding 64-bit operands. -/
def intShlOne (k : Nat) : Nat :=
  if k % 32 = 31 then 2 ^ 64 - 2 ^ 31 else 2 ^ (k % 32)

/-- The aligned little-endian 64-bit word read `source[i]` performed by
decode, which reinterprets the byte buffer as `const uint64_t *`
(compress_integer_elias_delta.cpp line 90). -/
def readWord (bytes : Nat → Nat) (i : Nat) : Nat :=
  bytes (8 * i) % 256
    + (bytes (8 * i + 1) % 256) * 2 ^ 8
    + (bytes (8 * i + 2) % 256) * 2 ^ 16
    + (bytes (8 * i + 3) % 256) * 2 ^ 24
    + (bytes (8 * i + 4) % 256) * 2 ^ 32
    + (bytes (8 * i + 5) % 256) * 2 ^ 40
    + (bytes (8 * i + 6) % 256) * 2 ^ 48
    + (bytes (8 * i + 7) % 256) * 2 ^ 56

/-- Decoder cursor state: the current word `value`, the count `bits_used`
of bits consumed from it, the index the source pointer has reached, and
the value of the function-local `static uint32_t total` counter declared
at compress_integer_elias_delta.cpp line 96. -/
structure DecodeState where
  value : Nat
  bitsUsed : Nat
  srcIdx : Nat
  total : Nat

/-- The data path of one pass of the decoding loop
(compress_integer_elias_delta.cpp lines 103-161) on the cursor
`(value, bits_used, srcIdx)`: the unary scan (lines 107-120), the
length-field extraction with its word-boundary branch (lines 125-142), and
the value-field extraction with its word-boundary branch (lines 147-161).
Returns the decoded integer and the new cursor. -/
def decodeCore (bytes : Nat → Nat) (value bitsUsed srcIdx : Nat) :
    Nat × Nat × Nat × Nat :=
  let s1 :=
    if value = 0 then
      let u0 := 64 - bitsUsed
      let w := readWord bytes srcIdx
      let bu := tzcnt w
      (u0 + bu, w >>> bu, bu, srcIdx + 1)
    else
      let u := tzcnt value
      (u, value >>> u, bitsUsed + u, srcIdx)
  let unary := s1.1
  let value1 := s1.2.1
  let bitsUsed1 := s1.2.2.1
  let src1 := s1.2.2.2
  let s2 :=
    if 64 < bitsUsed1 + unary + 1 then
      let sh := unary - (64 - bitsUsed1)
      let w := readWord bytes src1
      let b := ((value1 <<< sh) % 2 ^ 64) ||| bextr w 0 (sh + 1)
      (((b >>> 1) ||| ((1 <<< unary) % 2 ^ 64)), w >>> (sh + 1), sh + 1, src1 + 1)
    else
      let before := bextr value1 0 (unary + 1)
      (((before >>> 1) ||| ((1 <<< unary) % 2 ^ 64)), value1 >>> (unary + 1),
        bitsUsed1 + unary + 1, src1)
  let binary := s2.1
  let value2 := s2.2.1
  let bitsUsed2 := s2.2.2.1
  let src2 := s2.2.2.2
  if 64 < bitsUsed2 + binary then
    let sh := binary - (64 - bitsUsed2)
    let w := readWord bytes src2
    let d := ((value2 <<< sh) % 2 ^ 64) ||| bextr w 0 sh ||| intShlOne (binary - 1)
    (d, w >>> sh, sh, src2 + 1)
  else
    (bextr value2 0 binary ||| intShlOne (binary - 1),
      value2 >>> (binary - 1), bitsUsed2 + (binary - 1), src2)

/-- One pass of the decoding loop including the dormant debug counter at
compress_integer_elias_delta.cpp lines 96-101: `total` is incremented as a
32-bit value each pass, and the body of `if (total == 15)` is an unused
local declaration, so the counter feeds nothing. -/
def decodeOne (bytes : Nat → Nat) (s : DecodeState) : Nat × DecodeState :=
  let r := decodeCore bytes s.value s.bitsUsed s.srcIdx
  (r.1, ⟨r.2.1, r.2.2.1, r.2.2.2, (s.total + 1) % 2 ^ 32⟩)

/-- The decoding loop (compress_integer_elias_delta.cpp lines 93-162): one
integer is emitted per pass, exactly `count` passes are made. -/
def decodeLoop (bytes : Nat → Nat) : Nat → DecodeState → List Nat × DecodeState
  | 0, s => ([], s)
  | count + 1, s =>
    let r := decodeOne bytes s
    let rest := decodeLoop bytes count r.2
    (r.1 :: rest.1, rest.2)

/-- compress_integer_elias_delta::decode (compress_integer_elias_delta.cpp
lines 85-163).  The initial load `value = *source` at line 91 does not
advance the source pointer, so the state starts at word index 0 with
`value` already holding word 0.  The parameter `source_length` belongs to
the C++ signature but is never read by the body.  The result is the filled
destination sequence together with the final value of the static counter. -/
def decode (integers_to_decode : Nat) (bytes : Nat → Nat)
    (source_length : Nat) (total0 : Nat) : List Nat × Nat :=
  let r := decodeLoop bytes integers_to_decode ⟨readWord bytes 0, 0, 0, total0⟩
  (r.1, r.2.total)

/-- All-zero prior memory, used to instantiate concrete encode calls. -/
def zeroMem : Nat → Nat := fun _ => 0

/-! Helper lemmas: the table lookup and the do-while loop of
maths::floor_log2 compute the mathematical floor of the base-2 logarithm. -/

theorem floor_log2_answer_le (b : Nat) : floor_log2_answer b ≤ 7 := by
  unfold floor_log2_answer
  split_ifs <;> omega

theorem floor_log2_answer_eq (b : Nat) (h1 : 1 ≤ b) (h2 : b < 256) :
    floor_log2_answer b = Nat.log 2 b := by
  unfold floor_log2_answer
  split_ifs with ha hb hc hd he hf hg <;> symm <;>
    apply Nat.log_eq_of_pow_le_of_lt_pow <;> norm_num <;> omega

theorem floor_log2_go_le (fuel : Nat) :
    ∀ x mult : Nat, floor_log2_go fuel x mult ≤ 7 + 8 * fuel + mult := by
  induction fuel with
  | zero =>
    intro x mult
    have := floor_log2_answer_le (x % 256)
    simp only [floor_log2_go]
    omega
  | succ f ih =>
    intro x mult
    simp only [floor_log2_go]
    split
    · have := floor_log2_answer_le (x % 256)
      omega
    · have := ih (x / 256) (mult + 8)
      omega

theorem floor_log2_le_71 (x : Nat) : floor_log2 x ≤ 71 := by
  unfold floor_log2
  have := floor_log2_go_le 8 (x % 2 ^ 64) 0
  omega

theorem floor_log2_go_eq (fuel : Nat) :
    ∀ x mult : Nat, 1 ≤ x → x < 2 ^ (8 * fuel) →
      floor_log2_go fuel x mult = Nat.log 2 x + mult := by
  induction fuel with
  | zero =>
    intro x mult h1 h2
    norm_num at h2
    omega
  | succ f ih =>
    intro x mult h1 h2
    simp only [floor_log2_go]
    split
    · rename_i h
      have hx : x < 256 := by omega
      rw [Nat.mod_eq_of_lt hx, floor_log2_answer_eq x h1 hx]
    · rename_i h
      have hx : 256 ≤ x := by omega
      have h1' : 1 ≤ x / 256 := by omega
      have hpow : 2 ^ (8 * (f + 1)) = 2 ^ (8 * f) * 256 := by
        rw [show 8 * (f + 1) = 8 * f + 8 by ring, pow_add]
        norm_num
      have h2' : x / 256 < 2 ^ (8 * f) := by
        rw [Nat.div_lt_iff_lt_mul (by norm_num : 0 < 256)]
        omega
      rw [ih (x / 256) (mult + 8) h1' h2']
      have hlo : 2 ^ (Nat.log 2 (x / 256)) ≤ x / 256 :=
        Nat.pow_log_le_self 2 (by omega)
      have hhi : x / 256 < 2 ^ (Nat.log 2 (x / 256) + 1) :=
        Nat.lt_pow_succ_log_self (by norm_num) (x / 256)
      have hlo' : 2 ^ (Nat.log 2 (x / 256) + 8) ≤ x := by
        have := (Nat.le_div_iff_mul_le (by norm_num : 0 < 256)).1 hlo
        calc 2 ^ (Nat.log 2 (x / 256) + 8) = 2 ^ (Nat.log 2 (x / 256)) * 256 := by
              rw [pow_add]; norm_num
          _ ≤ x := this
      have hhi' : x < 2 ^ (Nat.log 2 (x / 256) + 8 + 1) := by
        have := (Nat.div_lt_iff_lt_mul (by norm_num : 0 < 256)).1 hhi
        calc x < 2 ^ (Nat.log 2 (x / 256) + 1) * 256 := this
          _ = 2 ^ (Nat.log 2 (x / 256) + 8 + 1) := by rw [pow_add, pow_add]; ring_nf
      have := Nat.log_eq_of_pow_le_of_lt_pow hlo' hhi'
      omega

theorem floor_log2_eq (x : Nat) (h1 : 1 ≤ x) (h2 : x < 2 ^ 64) :
    floor_log2 x = Nat.log 2 x := by
  unfold floor_log2
  rw [Nat.mod_eq_of_lt h2]
  have h64 : x < 2 ^ (8 * 8) := by norm_num; omega
  have := floor_log2_go_eq 8 x 0 h1 h64
  omega

/-! Helper lemmas about the encoding fold: the bit cursor advances by
`2 * floor_log2 (bit length) + bit length` per integer, independently of
the buffer contents and the capacity. -/

theorem encodeStep_snd (st : (Nat → Nat) × Nat) (v : Nat) :
    (encodeStep st v).2
      = st.2 + (2 * floor_log2 (floor_log2 v + 1) + floor_log2 v + 1) := by
  have h71 := floor_log2_le_71 v
  have h32 : (2 : Nat) ^ 32 = 4294967296 := by norm_num
  have hn : (floor_log2 v + 1) % 2 ^ 32 = floor_log2 v + 1 :=
    Nat.mod_eq_of_lt (by omega)
  simp only [encodeStep, hn]
  omega

theorem foldl_encodeStep_snd (S : List Nat) :
    ∀ (b : Nat → Nat) (i : Nat),
      (S.foldl encodeStep (b, i)).2
        = i + (S.map fun v =>
            2 * floor_log2 (floor_log2 v + 1) + floor_log2 v + 1).sum := by
  induction S with
  | nil => intro b i; simp
  | cons v t ih =>
    intro b i
    simp only [List.foldl_cons, List.map_cons, List.sum_cons]
    rw [show encodeStep (b, i) v
        = ((encodeStep (b, i) v).1, (encodeStep (b, i) v).2) from rfl]
    rw [ih]
    rw [encodeStep_snd]
    omega

/-! Helper lemmas about the decoding loop: its output length and the
irrelevance of the static counter to everything except itself. -/

theorem decodeLoop_length (bytes : Nat → Nat) :
    ∀ (count : Nat) (s : DecodeState),
      ((decodeLoop bytes count s).1).length = count := by
  intro count
  induction count with
  | zero => intro s; rfl
  | succ k ih =>
    intro s
    simp only [decodeLoop, List.length_cons]
    rw [ih]

theorem decodeLoop_fst_counter (bytes : Nat → Nat) :
    ∀ (count v b i t1 t2 : Nat),
      (decodeLoop bytes count ⟨v, b, i, t1⟩).1
        = (decodeLoop bytes count ⟨v, b, i, t2⟩).1 := by
  intro count
  induction count with
  | zero => intros; rfl
  | succ k ih =>
    intro v b i t1 t2
    simp only [decodeLoop, decodeOne]
    rw [ih]

set_option maxRecDepth 10000

/-! The claims. -/

/-- C1: the claimed round-trip law `decode (encode S) |S| = S` for every
sequence of positive integers fails on the code.  For the 66-element
sequence of sixty-four 1s followed by 2 and 3 the encoder produces a
correct 9-byte stream, but the decoder returns sixty-six 1s: the initial
load `value = *source` does not advance the source pointer, so when the
first word is exhausted the refill at line 110 re-reads word 0 instead of
word 1 and the decoder keeps consuming the first word's bits. -/
theorem decode_encode_round_trip_fails :
    (decode 66 (encode zeroMem 16 (List.replicate 64 1 ++ [2, 3])).1 9 0).1
        = List.replicate 66 1
      ∧ List.replicate 66 1 ≠ (List.replicate 64 1 ++ [2, 3] : List Nat) := by
  constructor
  · decide
  · decide

/-- C2: the claimed correct handling of codeword fields that straddle a
64-bit word boundary fails on the code.  For sixty 1s followed by 5 the
value field of the final codeword occupies stream bits 63 and 64, one bit
in each word; the decoder returns 7 instead of 5 because the straddling
branch at lines 147-155 shifts the current word's remaining bits to the
high end and ORs the next word's bits in at the low end (the reverse of
the low-bits-first layout the encoder wrote), and because the word it
fetches is again word 0. -/
theorem decode_misassembles_straddling_field :
    (decode 61 (encode zeroMem 16 (List.replicate 60 1 ++ [5])).1 9 0).1
        = List.replicate 60 1 ++ [7]
      ∧ (List.replicate 60 1 ++ [7] : List Nat) ≠ List.replicate 60 1 ++ [5] := by
  constructor
  · decide
  · decide

/-- C3: for every valid integer N (1 ≤ N ≤ 2^63 − 1) the number of bits
the encoder consumes for N's codeword — the advance of the bit cursor
`into` — equals 2⌊log2(⌊log2 N⌋ + 1)⌋ + ⌊log2 N⌋ + 1; in particular N = 1
occupies a single bit. -/
theorem codeword_bit_length_formula (N : Nat) (h1 : 1 ≤ N) (h2 : N ≤ 2 ^ 63 - 1) :
    encodedBitLength [N]
        = 2 * Nat.log 2 (Nat.log 2 N + 1) + Nat.log 2 N + 1
      ∧ encodedBitLength [1] = 1 := by
  constructor
  · have hN64 : N < 2 ^ 64 := by
      have : (2 : Nat) ^ 63 - 1 < 2 ^ 64 := by norm_num
      omega
    unfold encodedBitLength
    simp only [List.foldl_cons, List.foldl_nil]
    rw [encodeStep_snd]
    rw [floor_log2_eq N h1 hN64]
    rw [floor_log2_eq (Nat.log 2 N + 1) (by omega)
      (by have := Nat.log_le_self 2 N; omega)]
    simp
  · decide

/-- Witness for C3 at N = 5. -/
theorem codeword_bit_length_formula_witness :
    1 ≤ 5 ∧ (5 : Nat) ≤ 2 ^ 63 - 1
      ∧ (encodedBitLength [5]
            = 2 * Nat.log 2 (Nat.log 2 5 + 1) + Nat.log 2 5 + 1
          ∧ encodedBitLength [1] = 1) :=
  ⟨by decide, by decide, codeword_bit_length_formula 5 (by decide) (by decide)⟩

/-- C4: for every valid sequence S the value encode returns is the ceiling
of the summed per-integer codeword bit lengths divided by 8, for the empty
sequence 0, independently of the buffer and capacity supplied. -/
theorem encode_returns_ceil_of_total_bits (mem : Nat → Nat) (cap : Nat)
    (S : List Nat) (h : ∀ v ∈ S, 1 ≤ v ∧ v ≤ 2 ^ 63 - 1) :
    (encode mem cap S).2
      = ((S.map fun v => 2 * Nat.log 2 (Nat.log 2 v + 1) + Nat.log 2 v + 1).sum
          + 7) / 8 := by
  unfold encode
  simp only []
  rw [foldl_encodeStep_snd]
  have hmap : (S.map fun v =>
        2 * floor_log2 (floor_log2 v + 1) + floor_log2 v + 1)
      = S.map fun v => 2 * Nat.log 2 (Nat.log 2 v + 1) + Nat.log 2 v + 1 := by
    apply List.map_congr_left
    intro v hv
    obtain ⟨hv1, hv2⟩ := h v hv
    have hv64 : v < 2 ^ 64 := by
      have : (2 : Nat) ^ 63 - 1 < 2 ^ 64 := by norm_num
      omega
    rw [floor_log2_eq v hv1 hv64]
    rw [floor_log2_eq (Nat.log 2 v + 1) (by omega)
      (by have := Nat.log_le_self 2 v; omega)]
  rw [hmap, Nat.zero_add]

/-- Witness for C4 at S = [1, 2, 3] into a zeroed 8-byte buffer. -/
theorem encode_returns_ceil_of_total_bits_witness :
    (∀ v ∈ [1, 2, 3], 1 ≤ v ∧ v ≤ 2 ^ 63 - 1)
      ∧ (encode zeroMem 8 [1, 2, 3]).2
          = (([1, 2, 3].map fun v =>
                2 * Nat.log 2 (Nat.log 2 v + 1) + Nat.log 2 v + 1).sum + 7) / 8 :=
  ⟨by decide, encode_returns_ceil_of_total_bits zeroMem 8 [1, 2, 3] (by decide)⟩

/-- C5: on S = [1, 2, 3] the encoder emits exactly the nine bits
1; 0,1,0,0; 0,1,0,1 — the single set bit for 1, then for 2 one unary zero,
the two length-field bits 1,0 and the value bit 0, then for 3 the same
header shape with value bit 1 — reports 2 bytes, and decoding that buffer
with count 3 returns [1, 2, 3]. -/
theorem example_sequence_1_2_3 :
    (encode zeroMem 8 [1, 2, 3]).2 = 2
      ∧ (List.range 9).map (streamBit (encode zeroMem 8 [1, 2, 3]).1)
          = [1, 0, 1, 0, 0, 0, 1, 0, 1]
      ∧ (decode 3 (encode zeroMem 8 [1, 2, 3]).1
            (encode zeroMem 8 [1, 2, 3]).2 0).1 = [1, 2, 3] := by
  refine ⟨by decide, by decide, by decide⟩

/-- C6 counterexample: encode does not signal any error on a zero input —
its C++ signature has no error channel and its body no check; it encodes a
0 exactly as it encodes a 1 (the log2 table maps 0 to 0), producing the
identical buffer and the identical byte count. -/
theorem encode_zero_counterexample :
    encode zeroMem 8 [0] = encode zeroMem 8 [1] := rfl

/-- C6 as amended: encode performs no zero check at all; a sequence
starting with the invalid integer 0 is encoded exactly like the same
sequence with the 0 replaced by 1, silently, whatever the buffer,
capacity and remaining values. -/
theorem encode_zero_is_silently_coerced (mem : Nat → Nat) (cap : Nat)
    (rest : List Nat) :
    encode mem cap (0 :: rest) = encode mem cap (1 :: rest) := rfl

/-- C7 counterexample: asked for 3 integers from a stream whose true
content is two codewords in one byte, decode does not report any error —
its C++ signature returns void and its body never consults
`source_length` — it fabricates a third value (here 1) by re-reading
words it has already consumed and reading word 1, which lies past the
1-byte stream. -/
theorem decode_overrun_counterexample :
    (encode zeroMem 16 [1, 1]).2 = 1
      ∧ (decode 3 (encode zeroMem 16 [1, 1]).1 1 0).1 = [1, 1, 1] := by
  refine ⟨by decide, by decide⟩

/-- C7 as amended: decode performs no bounds checking whatsoever: for
every buffer, every source_length and every requested count it emits
exactly `integers_to_decode` integers, fetching as many words beyond the
buffer as that takes. -/
theorem decode_always_emits_requested_count (count : Nat) (bytes : Nat → Nat)
    (source_length total0 : Nat) :
    ((decode count bytes source_length total0).1).length = count := by
  unfold decode
  exact decodeLoop_length bytes count _

/-- C8 counterexample: encoding nine 1s (9 bits, true requirement 2 bytes)
into a capacity of 1 byte reports no error: encode returns the full
2-byte count and sets byte 1 — one past the supplied capacity, zero
before the call — to 1, an out-of-capacity write. -/
theorem encode_overrun_counterexample :
    (encode zeroMem 1 (List.replicate 9 1)).2 = 2
      ∧ (encode zeroMem 1 (List.replicate 9 1)).1 1 = 1
      ∧ zeroMem 1 = 0 := by
  refine ⟨by decide, by decide, by decide⟩

/-- C8 as amended: encode performs no capacity check: the byte count it
returns is computed from the bit cursor alone and is therefore identical
for any two capacities and any two prior memory contents; the capacity
only bounds the initial memset, not the writes. -/
theorem encode_return_ignores_capacity (m1 m2 : Nat → Nat) (c1 c2 : Nat)
    (S : List Nat) :
    (encode m1 c1 S).2 = (encode m2 c2 S).2 := by
  unfold encode
  simp only []
  rw [foldl_encodeStep_snd, foldl_encodeStep_snd]

/-- C9: the only persistent state in the codec, decode's function-local
static counter `total`, never influences the decoded output: two decode
calls on the same buffer, count and length return the same sequence
whatever the counter's prior value, i.e. however many calls preceded
them.  (The embedded encode carries no state at all.) -/
theorem decode_output_independent_of_counter (count : Nat) (bytes : Nat → Nat)
    (source_length t1 t2 : Nat) :
    (decode count bytes source_length t1).1
      = (decode count bytes source_length t2).1 := by
  unfold decode
  exact decodeLoop_fst_counter bytes count _ 0 0 t1 t2

/-- C10: decode's output is completely independent of its source_length
argument: the parameter appears in the C++ signature but the body never
reads it, so the call results for any two lengths are identical. -/
theorem decode_ignores_source_length (count : Nat) (bytes : Nat → Nat)
    (L1 L2 total0 : Nat) :
    decode count bytes L1 total0 = decode count bytes L2 total0 := rfl
